import Mathlib

/-!
# Verification of the `lock_order` crate's `lock` proc-macro

Shallow embedding of `src/lib.rs`. The macro receives a token stream; we
model it as a `List String` of the tokens' rendered texts (the Rust code
itself operates on `i.to_string()` for each token tree `i`). The output
`TokenStream` is produced by `format!`-ing a single statement string and
re-parsing it; we model the emitted statement text (the `format!` result).
-/

/-- Embeds the Rust struct `LockItem` (src/lib.rs:60-65). `#[derive(Default)]`
on it yields empty strings and `false`. -/
structure LockItem where
  last_identifier : String
  full_identifier : String
  mutable : Bool
deriving DecidableEq, Repr

/-- Embeds `LockItem::default()`: the `Default` derive gives `""`, `""`, `false`. -/
def LockItem.default : LockItem :=
  { last_identifier := "", full_identifier := "", mutable := false }

/-- Embeds `LockItem::add` (src/lib.rs:68-71): append the token's text to
`full_identifier` and overwrite `last_identifier` with it. -/
def LockItem.add (c : LockItem) (id : String) : LockItem :=
  { c with full_identifier := c.full_identifier ++ id, last_identifier := id }

/-- The token-scanning loop of `lock` (src/lib.rs:117-135), including the
final push of a non-default in-progress item. `curr` is the in-progress
item; the returned list is `out` in push order. -/
def scanTokens (curr : LockItem) : List String → List LockItem
  | [] => if curr = LockItem.default then [] else [curr]
  | t :: ts =>
    if t = "mut" then scanTokens { curr with mutable := true } ts
    else if t = "," then curr :: scanTokens LockItem.default ts
    else scanTokens (curr.add t) ts

/-- The `String` order used by the sort: `a ≤ b`, spelled on the underlying
character lists so that it evaluates by kernel reduction. Lean's `String`
order is lexicographic on code points, which coincides with Rust's UTF-8
byte-lexicographic `Ord` for `String` (UTF-8 byte order equals code-point
order). `strLe_iff` below identifies it with Mathlib's `≤` on `String`. -/
def strLe (a b : String) : Prop := ¬ (b.data < a.data)

instance : DecidableRel strLe := fun _ _ => instDecidableNot

/-- The comparison of src/lib.rs:137: items compared by `last_identifier`. -/
def itemLE (a b : LockItem) : Prop :=
  strLe a.last_identifier b.last_identifier

instance : DecidableRel itemLE := fun a b =>
  inferInstanceAs (Decidable (strLe a.last_identifier b.last_identifier))

/-- The sort step (src/lib.rs:137):
`out.sort_by(|a, b| a.last_identifier.partial_cmp(&b.last_identifier).unwrap())`.
Rust's `sort_by` is a stable sort by the total order on `last_identifier`
(`partial_cmp` on `String` is `Some(cmp)`). `List.insertionSort` with a
non-strict `≤` comparison is also stable, and any two stable sorts by the
same total preorder produce the same list. -/
def sortItems (l : List LockItem) : List LockItem :=
  List.insertionSort itemLE l

/-- One element of the `declarations` vector (src/lib.rs:139-149). -/
def declString (x : LockItem) : String :=
  if x.mutable then "mut " ++ x.last_identifier else x.last_identifier

/-- One element of the `locks` vector (src/lib.rs:150-153). -/
def lockString (x : LockItem) : String :=
  x.full_identifier ++ ".lock().unwrap()"

/-- The final `format!("let ({}) = ({});", ..)` (src/lib.rs:155-159) applied
to an already-sorted item list. -/
def emitStmt (out : List LockItem) : String :=
  "let (" ++ String.intercalate ", " (out.map declString) ++ ") = ("
    ++ String.intercalate ", " (out.map lockString) ++ ");"

/-- The whole `lock` proc-macro body (src/lib.rs:114-162), from input token
texts to the emitted statement text. -/
def lock (item : List String) : String :=
  emitStmt (sortItems (scanTokens LockItem.default item))

/-- Rust's `<String as PartialOrd>::partial_cmp`, which is defined in the
standard library as `Some(self.cmp(other))` (total order, never `None`);
this is the comparison whose result src/lib.rs:137 `unwrap`s. -/
def stringCmpOpt (a b : String) : Option Ordering :=
  some (compare a b)

/-!
## Spec-level input description

The macro's callers write `[mut] path [, [mut] path]*`. The Rust tokenizer
hands the macro one token per identifier and one per punctuation character,
so `mut self.locks.connections` arrives as the token texts
`["mut", "self", ".", "locks", ".", "connections"]`. `Entry` describes one
such entry abstractly; `joinTokens` renders a list of entries to the token
texts the macro receives.
-/

/-- One input entry: an optional `mut` marker and a dotted path given by its
identifier segments. -/
structure Entry where
  mutable : Bool
  segs : List String
deriving DecidableEq, Repr

/-- A well-formed entry: a non-empty path whose segments are ordinary
identifier texts — none is the `mut` marker, the comma separator, or empty. -/
def wfEntry (e : Entry) : Prop :=
  e.segs ≠ [] ∧ ∀ s ∈ e.segs, s ≠ "mut" ∧ s ≠ "," ∧ s ≠ ""

instance : DecidablePred wfEntry := fun e => by
  unfold wfEntry
  infer_instance

/-- The final segment of a path. -/
def lastSeg : List String → String
  | [] => ""
  | [s] => s
  | _ :: s :: ss => lastSeg (s :: ss)

/-- The dotted rendering of a path, exactly as concatenating its tokens
produces it. -/
def dotted : List String → String
  | [] => ""
  | [s] => s
  | s :: s₂ :: ss => s ++ "." ++ dotted (s₂ :: ss)

/-- The token texts of a path: segments interleaved with `.` tokens. -/
def segTokens : List String → List String
  | [] => []
  | [s] => [s]
  | s :: s₂ :: ss => s :: "." :: segTokens (s₂ :: ss)

/-- The token texts of one entry. -/
def entryTokens (e : Entry) : List String :=
  (if e.mutable then ["mut"] else []) ++ segTokens e.segs

/-- The token texts of a comma-separated entry list (no trailing comma). -/
def joinTokens : List Entry → List String
  | [] => []
  | [e] => entryTokens e
  | e :: e₂ :: es => entryTokens e ++ "," :: joinTokens (e₂ :: es)

/-- The `LockItem` the scan builds from one well-formed entry. -/
def entryItem (e : Entry) : LockItem :=
  { last_identifier := lastSeg e.segs
    full_identifier := dotted e.segs
    mutable := e.mutable }

/-!
## Helper lemmas
-/

theorem strLe_iff (a b : String) : strLe a b ↔ a ≤ b := by
  unfold strLe
  rw [show b.data = b.toList from rfl, show a.data = a.toList from rfl,
    ← String.lt_iff_toList_lt]
  exact not_lt

instance : IsTotal LockItem itemLE :=
  ⟨fun a b => by
    simp only [itemLE, strLe_iff]
    exact le_total _ _⟩

instance : IsTrans LockItem itemLE :=
  ⟨fun a b c hab hbc => by
    simp only [itemLE, strLe_iff] at *
    exact le_trans hab hbc⟩

theorem str_append_assoc (a b c : String) : a ++ b ++ c = a ++ (b ++ c) := by
  apply congrArg String.mk
  simp [String.data_append]

theorem lastSeg_mem : ∀ (segs : List String), segs ≠ [] → lastSeg segs ∈ segs
  | [], h => absurd rfl h
  | [s], _ => by simp [lastSeg]
  | _ :: s₂ :: ss, _ => by
    simp only [lastSeg, List.mem_cons]
    exact Or.inr (List.mem_cons.1 (lastSeg_mem (s₂ :: ss) (by simp)))

/-- Scanning the tokens of a path threads `LockItem.add` through every
segment and dot: the last token wins `last_identifier`, the concatenation
lands in `full_identifier`, and the mutability flag is untouched. -/
theorem scan_segTokens :
    ∀ (segs : List String), segs ≠ [] → (∀ s ∈ segs, s ≠ "mut" ∧ s ≠ ",") →
    ∀ (c : LockItem) (ts : List String),
      scanTokens c (segTokens segs ++ ts) =
        scanTokens
          { last_identifier := lastSeg segs
            full_identifier := c.full_identifier ++ dotted segs
            mutable := c.mutable } ts
  | [], h, _ => absurd rfl h
  | [s], _, hs => by
    intro c ts
    have h1 : s ≠ "mut" := (hs s (by simp)).1
    have h2 : s ≠ "," := (hs s (by simp)).2
    simp [segTokens, scanTokens, h1, h2, LockItem.add, lastSeg, dotted]
  | s :: s₂ :: ss, _, hs => by
    intro c ts
    have h1 : s ≠ "mut" := (hs s (by simp)).1
    have h2 : s ≠ "," := (hs s (by simp)).2
    have hs' : ∀ x ∈ s₂ :: ss, x ≠ "mut" ∧ x ≠ "," := fun x hx =>
      hs x (by simp [hx])
    show scanTokens c (s :: "." :: (segTokens (s₂ :: ss) ++ ts)) = _
    rw [scanTokens, if_neg h1, if_neg h2]
    rw [scanTokens, if_neg (by decide : ("." : String) ≠ "mut"),
      if_neg (by decide : ("." : String) ≠ ",")]
    rw [scan_segTokens (s₂ :: ss) (by simp) hs' ((c.add s).add ".") ts]
    simp [LockItem.add, lastSeg, dotted, str_append_assoc]

theorem str_empty_append (s : String) : "" ++ s = s := by
  apply congrArg String.mk
  simp [String.data_append]

theorem scan_entryTokens (e : Entry) (he : wfEntry e) (ts : List String) :
    scanTokens LockItem.default (entryTokens e ++ ts) =
      scanTokens (entryItem e) ts := by
  obtain ⟨hne, hs⟩ := he
  have hs' : ∀ s ∈ e.segs, s ≠ "mut" ∧ s ≠ "," := fun s h => ⟨(hs s h).1, (hs s h).2.1⟩
  unfold entryTokens
  cases hm : e.mutable with
  | false =>
    simp only [if_neg Bool.false_ne_true, List.nil_append]
    rw [scan_segTokens e.segs hne hs' LockItem.default ts]
    simp [entryItem, LockItem.default, hm, str_empty_append]
  | true =>
    rw [if_pos rfl]
    simp only [List.cons_append, List.nil_append]
    rw [scanTokens, if_pos rfl]
    rw [scan_segTokens e.segs hne hs' { LockItem.default with mutable := true } ts]
    simp [entryItem, LockItem.default, hm, str_empty_append]

theorem entryItem_ne_default (e : Entry) (he : wfEntry e) :
    entryItem e ≠ LockItem.default := by
  obtain ⟨hne, hs⟩ := he
  have h : lastSeg e.segs ≠ "" := (hs _ (lastSeg_mem e.segs hne)).2.2
  intro hd
  exact h (congrArg LockItem.last_identifier hd)

theorem scan_joinTokens :
    ∀ (es : List Entry), (∀ e ∈ es, wfEntry e) →
      scanTokens LockItem.default (joinTokens es) = es.map entryItem
  | [], _ => by simp [joinTokens, scanTokens, LockItem.default]
  | [e], hwf => by
    have he := hwf e (by simp)
    have h := scan_entryTokens e he []
    rw [List.append_nil] at h
    show scanTokens LockItem.default (joinTokens [e]) = _
    rw [joinTokens, h]
    simp [scanTokens, entryItem_ne_default e he]
  | e :: e₂ :: es, hwf => by
    have he := hwf e (by simp)
    show scanTokens LockItem.default (entryTokens e ++ "," :: joinTokens (e₂ :: es)) = _
    rw [scan_entryTokens e he]
    rw [scanTokens, if_neg (by decide : ("," : String) ≠ "mut"), if_pos rfl]
    rw [scan_joinTokens (e₂ :: es) (fun x hx => hwf x (by simp [hx]))]
    simp

theorem sortItems_perm (l : List LockItem) : (sortItems l).Perm l :=
  List.perm_insertionSort itemLE l

theorem sortItems_sorted (l : List LockItem) : List.Sorted itemLE (sortItems l) :=
  List.sorted_insertionSort itemLE l

/-- The sorted output's `last_identifier` keys are in non-decreasing
lexicographic order. -/
theorem sorted_keys (l : List LockItem) :
    List.Sorted (fun a b : String => a ≤ b)
      ((sortItems l).map LockItem.last_identifier) :=
  (List.pairwise_map).2 ((sortItems_sorted l).imp fun h => (strLe_iff _ _).1 h)

instance : IsAntisymm LockItem
    (fun a b => a.last_identifier < b.last_identifier) :=
  ⟨fun _ _ h₁ h₂ => absurd h₁ (lt_asymm h₂)⟩

/-- A `≤`-sorted item list with pairwise-distinct keys is sorted by the
strict key order. -/
theorem sorted_strict (l : List LockItem) (hs : List.Sorted itemLE l)
    (hn : (l.map LockItem.last_identifier).Nodup) :
    List.Sorted (fun a b => a.last_identifier < b.last_identifier) l := by
  have hne : l.Pairwise fun a b => a.last_identifier ≠ b.last_identifier :=
    (List.pairwise_map).1 hn
  exact (hs.and hne).imp fun h =>
    lt_of_le_of_ne ((strLe_iff _ _).1 h.1) h.2

/-- Permutations with pairwise-distinct keys sort to the same list. -/
theorem sortItems_perm_eq (l l' : List LockItem) (hp : l.Perm l')
    (hn : (l.map LockItem.last_identifier).Nodup) :
    sortItems l = sortItems l' := by
  have hp' : (sortItems l).Perm (sortItems l') :=
    ((sortItems_perm l).trans hp).trans (sortItems_perm l').symm
  have hn₁ : ((sortItems l).map LockItem.last_identifier).Nodup :=
    ((sortItems_perm l).map LockItem.last_identifier).nodup_iff.2 hn
  have hn₂ : ((sortItems l').map LockItem.last_identifier).Nodup :=
    (hp'.map LockItem.last_identifier).nodup_iff.1 hn₁
  exact List.eq_of_perm_of_sorted hp'
    (sorted_strict _ (sortItems_sorted l) hn₁)
    (sorted_strict _ (sortItems_sorted l') hn₂)

/-!
## The claims
-/

/-- C1: the spec's worked example. For the input token sequence
`mut lock2, lock3, mut lock1` the emitted statement text is exactly
`let (mut lock1, mut lock2, lock3) = (lock1.lock().unwrap(), lock2.lock().unwrap(), lock3.lock().unwrap());`. -/
theorem c1_example_statement :
    lock ["mut", "lock2", ",", "lock3", ",", "mut", "lock1"] =
      "let (mut lock1, mut lock2, lock3) = (lock1.lock().unwrap(), lock2.lock().unwrap(), lock3.lock().unwrap());" := by
  decide

/-- C10: for an empty input token sequence the macro emits exactly
`let () = ();` rather than failing or emitting nothing. -/
theorem c10_empty_input :
    lock [] = "let () = ();" := by
  decide

/-- C8: the generator is deterministic — identical input token sequences
produce byte-identical output text. -/
theorem c8_deterministic (ts₁ ts₂ : List String) (h : ts₁ = ts₂) :
    lock ts₁ = lock ts₂ := by
  rw [h]

theorem c8_deterministic_witness :
    lock ["mut", "lock1"] = lock ["mut", "lock1"] :=
  c8_deterministic ["mut", "lock1"] ["mut", "lock1"] rfl

/-- C9: the ordering comparison the sort `unwrap`s is always defined:
`partial_cmp` on the `binding_name` strings of any two items is `Some`,
so the `unwrap` at src/lib.rs:137 cannot panic. -/
theorem c9_cmp_defined (a b : LockItem) :
    (stringCmpOpt a.last_identifier b.last_identifier).isSome = true :=
  rfl

/-- C7: after the scan, the in-progress entry is appended iff it differs
from the default empty entry; an input without a trailing comma has its
last entry emitted, empty input contributes nothing, and a trailing comma
with nothing after it adds no extra entry (the output equals the one
without the trailing comma). -/
theorem c7_final_entry_policy :
    (∀ curr : LockItem,
        scanTokens curr [] = if curr = LockItem.default then [] else [curr])
    ∧ scanTokens LockItem.default [] = []
    ∧ scanTokens LockItem.default ["lock1"] =
        [{ last_identifier := "lock1", full_identifier := "lock1", mutable := false }]
    ∧ lock ["lock1", ","] = lock ["lock1"] := by
  refine ⟨fun curr => rfl, by decide, by decide, by decide⟩

/-- C6: a token that is neither `mut` nor `,` is concatenated onto the
current item's `full_identifier` and overwrites its `last_identifier`;
consequently input `mut self.locks.connections` yields the single
statement `let (mut connections) = (self.locks.connections.lock().unwrap());`. -/
theorem c6_path_token_step :
    (∀ (c : LockItem) (t : String) (ts : List String), t ≠ "mut" → t ≠ "," →
        scanTokens c (t :: ts) =
          scanTokens
            { last_identifier := t
              full_identifier := c.full_identifier ++ t
              mutable := c.mutable } ts)
    ∧ lock ["mut", "self", ".", "locks", ".", "connections"] =
        "let (mut connections) = (self.locks.connections.lock().unwrap());" := by
  constructor
  · intro c t ts h1 h2
    rw [scanTokens, if_neg h1, if_neg h2]
    rfl
  · decide

/-- Scan invariant: if the in-progress item's `last_identifier` is a suffix
of its `full_identifier`, every item the scan emits keeps that property
(`mut` changes neither string, a comma restarts from the empty item, and
`LockItem.add` appends the very token it stores as `last_identifier`). -/
theorem scan_suffix (ts : List String) :
    ∀ (c : LockItem), c.last_identifier.data <:+ c.full_identifier.data →
      ∀ x ∈ scanTokens c ts, x.last_identifier.data <:+ x.full_identifier.data := by
  induction ts with
  | nil =>
    intro c hc x hx
    rw [scanTokens] at hx
    split at hx
    · simp at hx
    · rw [List.mem_singleton] at hx
      exact hx ▸ hc
  | cons t ts ih =>
    intro c hc x hx
    rw [scanTokens] at hx
    by_cases h1 : t = "mut"
    · rw [if_pos h1] at hx
      exact ih { c with mutable := true } hc x hx
    · rw [if_neg h1] at hx
      by_cases h2 : t = ","
      · rw [if_pos h2] at hx
        rcases List.mem_cons.1 hx with h | h
        · exact h ▸ hc
        · exact ih LockItem.default (List.suffix_refl []) x h
      · rw [if_neg h2] at hx
        refine ih (c.add t) ?_ x hx
        show t.data <:+ (c.full_identifier ++ t).data
        rw [String.data_append]
        exact List.suffix_append _ _

/-- C5 (counterexample): the claim fails on the input token sequence `,`:
the comma branch pushes the default item unconditionally, so an item whose
`binding_name` is empty reaches the sort-and-emit step. -/
theorem c5_counterexample :
    ¬ ∀ x ∈ sortItems (scanTokens LockItem.default [","]),
        x.last_identifier.data <:+ x.full_identifier.data ∧
          x.last_identifier ≠ "" := by
  intro h
  exact (h LockItem.default (by decide)).2 rfl

/-- C5 (amended): for every Lock Reference that reaches the sort-and-emit
step, `binding_name` is a suffix of `access_path`; it need not be
non-empty (a stray comma pushes the default, empty item). -/
theorem c5_amended_suffix (ts : List String) (x : LockItem)
    (hx : x ∈ sortItems (scanTokens LockItem.default ts)) :
    x.last_identifier.data <:+ x.full_identifier.data :=
  scan_suffix ts LockItem.default (List.suffix_refl []) x
    ((sortItems_perm (scanTokens LockItem.default ts)).mem_iff.1 hx)

theorem c5_amended_suffix_witness :
    ("lock1" : String).data <:+ ("lock1" : String).data :=
  c5_amended_suffix ["lock1"]
    { last_identifier := "lock1", full_identifier := "lock1", mutable := false }
    (by decide)

/-- C4: mutability is preserved per entry through sorting and emission — a
`mut`-marked entry contributes the declaration `mut <name>`, an unmarked
one the plain `<name>`, wherever it lands after sorting. -/
theorem c4_mut_preserved (es : List Entry) (hwf : ∀ e ∈ es, wfEntry e)
    (e : Entry) (he : e ∈ es) :
    (if e.mutable then "mut " ++ lastSeg e.segs else lastSeg e.segs)
      ∈ (sortItems (scanTokens LockItem.default (joinTokens es))).map declString := by
  rw [scan_joinTokens es hwf]
  refine List.mem_map.2 ⟨entryItem e, ?_, ?_⟩
  · exact (sortItems_perm _).mem_iff.2 (List.mem_map.2 ⟨e, he, rfl⟩)
  · simp [declString, entryItem]

theorem c4_mut_preserved_witness :
    (if (true : Bool) then "mut " ++ lastSeg ["lock2"] else lastSeg ["lock2"])
      ∈ (sortItems (scanTokens LockItem.default
          (joinTokens [⟨true, ["lock2"]⟩, ⟨false, ["lock1"]⟩]))).map declString :=
  c4_mut_preserved [⟨true, ["lock2"]⟩, ⟨false, ["lock1"]⟩] (by decide)
    ⟨true, ["lock2"]⟩ (by decide)

/-- C2: for well-formed entries with pairwise-distinct final segments, the
emitted bindings are in non-decreasing lexicographic order of binding
name, and the emitted statement is identical for every permutation of the
entry list. -/
theorem c2_sorted_perm_invariant (es es' : List Entry)
    (hwf : ∀ e ∈ es, wfEntry e)
    (hnd : (es.map fun e => lastSeg e.segs).Nodup)
    (hp : es.Perm es') :
    List.Sorted (fun a b : String => a ≤ b)
      ((sortItems (scanTokens LockItem.default (joinTokens es))).map
        LockItem.last_identifier)
    ∧ lock (joinTokens es) = lock (joinTokens es') := by
  have hwf' : ∀ e ∈ es', wfEntry e := fun e he => hwf e (hp.mem_iff.2 he)
  refine ⟨sorted_keys _, ?_⟩
  unfold lock
  rw [scan_joinTokens es hwf, scan_joinTokens es' hwf']
  rw [sortItems_perm_eq (es.map entryItem) (es'.map entryItem) (hp.map entryItem) ?_]
  rw [List.map_map]
  exact hnd

theorem c2_sorted_perm_invariant_witness :
    List.Sorted (fun a b : String => a ≤ b)
      ((sortItems (scanTokens LockItem.default
          (joinTokens [⟨true, ["lock2"]⟩, ⟨false, ["lock3"]⟩, ⟨true, ["lock1"]⟩]))).map
        LockItem.last_identifier)
    ∧ lock (joinTokens [⟨true, ["lock2"]⟩, ⟨false, ["lock3"]⟩, ⟨true, ["lock1"]⟩])
        = lock (joinTokens [⟨true, ["lock1"]⟩, ⟨true, ["lock2"]⟩, ⟨false, ["lock3"]⟩]) :=
  c2_sorted_perm_invariant
    [⟨true, ["lock2"]⟩, ⟨false, ["lock3"]⟩, ⟨true, ["lock1"]⟩]
    [⟨true, ["lock1"]⟩, ⟨true, ["lock2"]⟩, ⟨false, ["lock3"]⟩]
    (by decide) (by decide) (by decide)

/-- C3: for a well-formed entry list with distinct final segments, the
emitted statement has exactly one declaration and one acquisition per
entry, and the i-th declaration and i-th acquisition come from the same
entry: the binding name is that entry's final segment and the acquisition
is that entry's access path followed by `.lock().unwrap()`. -/
theorem c3_pairwise_matched (es : List Entry)
    (hwf : ∀ e ∈ es, wfEntry e)
    (hnd : (es.map fun e => lastSeg e.segs).Nodup) :
    ((sortItems (scanTokens LockItem.default (joinTokens es))).map declString).length
        = es.length
    ∧ ((sortItems (scanTokens LockItem.default (joinTokens es))).map lockString).length
        = es.length
    ∧ ∀ i, i < es.length →
        ∃ e ∈ es,
          ((sortItems (scanTokens LockItem.default (joinTokens es))).map declString).get? i
              = some (if e.mutable then "mut " ++ lastSeg e.segs else lastSeg e.segs)
          ∧ ((sortItems (scanTokens LockItem.default (joinTokens es))).map lockString).get? i
              = some (dotted e.segs ++ ".lock().unwrap()") := by
  rw [scan_joinTokens es hwf]
  have hlen : (sortItems (es.map entryItem)).length = es.length := by
    rw [(sortItems_perm _).length_eq, List.length_map]
  refine ⟨by simp [hlen], by simp [hlen], ?_⟩
  intro i hi
  have hi' : i < (sortItems (es.map entryItem)).length := by rw [hlen]; exact hi
  have hmem : (sortItems (es.map entryItem)).get ⟨i, hi'⟩ ∈ es.map entryItem :=
    (sortItems_perm _).mem_iff.1 (List.get_mem _ _ hi')
  obtain ⟨e, he, heq⟩ := List.mem_map.1 hmem
  refine ⟨e, he, ?_, ?_⟩
  · rw [List.get?_map, List.get?_eq_get hi', ← heq]
    simp [declString, entryItem]
  · rw [List.get?_map, List.get?_eq_get hi', ← heq]
    simp [lockString, entryItem]

theorem c3_pairwise_matched_witness :
    ((sortItems (scanTokens LockItem.default
        (joinTokens [⟨false, ["b"]⟩, ⟨true, ["a"]⟩]))).map declString).length = 2
    ∧ ((sortItems (scanTokens LockItem.default
        (joinTokens [⟨false, ["b"]⟩, ⟨true, ["a"]⟩]))).map lockString).length = 2
    ∧ ∀ i, i < 2 →
        ∃ e ∈ [(⟨false, ["b"]⟩ : Entry), ⟨true, ["a"]⟩],
          ((sortItems (scanTokens LockItem.default
              (joinTokens [⟨false, ["b"]⟩, ⟨true, ["a"]⟩]))).map declString).get? i
              = some (if e.mutable then "mut " ++ lastSeg e.segs else lastSeg e.segs)
          ∧ ((sortItems (scanTokens LockItem.default
              (joinTokens [⟨false, ["b"]⟩, ⟨true, ["a"]⟩]))).map lockString).get? i
              = some (dotted e.segs ++ ".lock().unwrap()") :=
  c3_pairwise_matched [⟨false, ["b"]⟩, ⟨true, ["a"]⟩] (by decide) (by decide)
